import Mathlib

/-!
Verification of the arxiv scraping/summarizing pipeline.

Python strings are modelled as `List Char` (`PyStr`); the Python `str`
methods used by the code (`replace`, `split`, `join`, `strip`, `lower`,
`endswith`, the `in` substring test) are embedded below with Python's
semantics.  `ArxivScraper._parse_paper_data` is embedded over an abstract
DOM view of the fetched listing (the HTML query API is an external
collaborator), `ArxivSummarizer._parse_papers_from_pdf` over the extracted
text of an artifact via a backtracking matcher for its regular expression,
and the artifact-name decoding of `summarize_latest_papers` /
`summarize_papers` directly.
-/

abbrev PyStr := List Char

/-- Characters that Python `str.strip()` removes (ASCII whitespace). -/
def pyIsSpace (c : Char) : Bool :=
  c = ' ' || c = '\t' || c = '\n' || c = '\r' || c = '\x0b' || c = '\x0c'

/-- Python `s.strip()`. -/
def pyStrip (s : PyStr) : PyStr :=
  ((s.dropWhile pyIsSpace).reverse.dropWhile pyIsSpace).reverse

/-- Python `s.lower()` (ASCII case folding). -/
def pyLower (s : PyStr) : PyStr := s.map Char.toLower

/-- Python `sub in s` substring test. -/
def pyContains : PyStr → PyStr → Bool
  | [], sub => sub.isPrefixOf []
  | s@(_ :: rest), sub => sub.isPrefixOf s || pyContains rest sub

/-- Python `s.endswith(suffix)`. -/
def pyEndsWith (s suffix : PyStr) : Bool := suffix.isSuffixOf s

/-- One scanning pass of Python `s.replace(old, new)` for non-empty `old`,
structurally recursive on a fuel bounded below by `s.length`. -/
def pyReplaceF (old new : PyStr) : Nat → PyStr → PyStr
  | _, [] => []
  | 0, s => s
  | fuel + 1, c :: rest =>
    if old.isPrefixOf (c :: rest) then
      new ++ pyReplaceF old new fuel ((c :: rest).drop old.length)
    else
      c :: pyReplaceF old new fuel rest

/-- Python `s.replace(old, new)`: replace all non-overlapping occurrences,
scanning left to right.  (With `old = []` Python inserts `new` everywhere;
the code only ever replaces non-empty markers, so that case returns `s`.) -/
def pyReplace (s old new : PyStr) : PyStr :=
  if old = [] then s else pyReplaceF old new s.length s

/-- First occurrence of `sep` in `s`: `some (before, after)` where
`s = before ++ sep ++ after` and `before` is shortest. -/
def splitOnce (s sep : PyStr) : Option (PyStr × PyStr) :=
  match s with
  | [] => none
  | c :: rest =>
    if sep.isPrefixOf (c :: rest) then some ([], (c :: rest).drop sep.length)
    else (splitOnce rest sep).map (fun p => (c :: p.1, p.2))

theorem splitOnce_eq (s sep : PyStr) (a b : PyStr) (h : splitOnce s sep = some (a, b)) :
    s = a ++ sep ++ b := by
  induction s generalizing a b with
  | nil => simp [splitOnce] at h
  | cons c rest ih =>
    rw [splitOnce] at h
    by_cases hp : sep.isPrefixOf (c :: rest)
    · rw [if_pos hp] at h
      simp only [Option.some.injEq, Prod.mk.injEq] at h
      obtain ⟨h1, h2⟩ := h
      obtain ⟨t, ht⟩ := List.isPrefixOf_iff_prefix.mp hp
      subst h1
      rw [← h2, ← ht]
      simp
    · rw [if_neg hp] at h
      simp only [Option.map_eq_some'] at h
      obtain ⟨⟨p1, p2⟩, hp1, hp2⟩ := h
      simp only [Prod.mk.injEq] at hp2
      obtain ⟨ha, hb⟩ := hp2
      subst ha; subst hb
      simp only [List.cons_append]
      rw [ih p1 p2 hp1]

theorem splitOnce_snd_lt (s sep : PyStr) (hsep : sep ≠ []) (a b : PyStr)
    (h : splitOnce s sep = some (a, b)) : b.length < s.length := by
  have := splitOnce_eq s sep a b h
  subst this
  simp only [List.length_append]
  have : 0 < sep.length := List.length_pos.mpr hsep
  omega

/-- Splitting pass of Python `s.split(sep)`, structurally recursive on a
fuel bounded below by `s.length`. -/
def pySplitF (sep : PyStr) : Nat → PyStr → List PyStr
  | 0, s => [s]
  | fuel + 1, s =>
    match splitOnce s sep with
    | none => [s]
    | some (a, b) => a :: pySplitF sep fuel b

/-- Python `s.split(sep)` for non-empty `sep`.
(`str.split` with an empty separator raises; the code always splits on
`". "` or `"/"`.) -/
def pySplit (s sep : PyStr) : List PyStr :=
  if sep = [] then [s] else pySplitF sep s.length s

/-- Python `sep.join(parts)`. -/
def pyJoin (sep : PyStr) (parts : List PyStr) : PyStr := List.intercalate sep parts

theorem pySplitF_ne_nil (sep : PyStr) (fuel : Nat) (s : PyStr) :
    pySplitF sep fuel s ≠ [] := by
  cases fuel with
  | zero => simp [pySplitF]
  | succ fuel =>
    rw [pySplitF]
    match h : splitOnce s sep with
    | none => simp
    | some (a, b) => simp

theorem pySplit_ne_nil (s sep : PyStr) : pySplit s sep ≠ [] := by
  rw [pySplit]
  by_cases hsep : sep = []
  · simp [hsep]
  · simp only [hsep, if_neg, not_false_iff]
    exact pySplitF_ne_nil sep s.length s

theorem pyJoin_pySplitF (sep : PyStr) (hsep : sep ≠ []) (fuel : Nat) (s : PyStr)
    (hfuel : s.length ≤ fuel) : pyJoin sep (pySplitF sep fuel s) = s := by
  induction fuel generalizing s with
  | zero =>
    have : s = [] := List.length_eq_zero.mp (Nat.le_zero.mp hfuel)
    subst this
    simp [pySplitF, pyJoin, List.intercalate]
  | succ fuel ih =>
    rw [pySplitF]
    match h : splitOnce s sep with
    | none => simp [pyJoin, List.intercalate]
    | some (a, b) =>
      have hlt := splitOnce_snd_lt s sep hsep a b h
      have hb : b.length ≤ fuel := by omega
      have ihb := ih b hb
      have hne := pySplitF_ne_nil sep fuel b
      have heq := splitOnce_eq s sep a b h
      simp only [pyJoin, List.intercalate] at ihb ⊢
      match hsp : pySplitF sep fuel b with
      | [] => exact absurd hsp hne
      | x :: xs =>
        rw [hsp] at ihb
        simp only [List.intersperse_cons_cons, List.flatten_cons]
        rw [ihb, heq]
        simp [List.append_assoc]

/-- Joining the pieces of a Python split with the same separator
reconstructs the original string. -/
theorem pyJoin_pySplit (s sep : PyStr) : pyJoin sep (pySplit s sep) = s := by
  rw [pySplit]
  by_cases hsep : sep = []
  · simp [hsep, pyJoin, List.intercalate]
  · simp only [hsep, if_neg, not_false_iff]
    exact pyJoin_pySplitF sep hsep s.length s (Nat.le_refl _)

/-! ## Data model: paper records -/

/-- A paper record as built by `ArxivScraper._parse_paper_data` and
`ArxivSummarizer._parse_papers_from_pdf` (a Python dict with keys
`title`, `authors`, `subjects`, `abstract`, `link`, `paper_id`; the
re-parser may set `link`/`paper_id` to `None`, modelled by `Option`). -/
structure Paper where
  title : PyStr
  authors : PyStr
  subjects : PyStr
  abstract : PyStr
  link : Option PyStr
  paperId : Option PyStr
deriving DecidableEq

/-- The sentence separator `". "` used by the extractive summarizer. -/
def dotSpace : PyStr := (". ").data

/-- Embedding of `ArxivSummarizer._generate_simple_summary`:
split the abstract on `". "`, join the first three sentences, and append
`"."` when the abstract does not already end with `"."`. -/
def generate_simple_summary (paper : Paper) : PyStr :=
  let abstract := paper.abstract
  let sentences := pySplit abstract dotSpace
  pyJoin dotSpace (sentences.take 3) ++
    (if !(pyEndsWith abstract ((".").data)) then ((".").data) else [])

/-- A one-sentence paper record used as a concrete counterexample. -/
def helloPaper : Paper :=
  { title := ("T").data, authors := ("A").data, subjects := ("S").data,
    abstract := ("Hello").data, link := none, paperId := none }

/-- C4 counterexample: the abstract `"Hello"` has fewer than 3
`". "`-separated sentences, yet the extractive summary is `"Hello."`,
which differs from the (trimmed) abstract: the code appends a period
whenever the abstract does not already end with one. -/
theorem simple_summary_appends_period :
    (pySplit helloPaper.abstract dotSpace).length < 3 ∧
    generate_simple_summary helloPaper = ("Hello.").data ∧
    generate_simple_summary helloPaper ≠ pyStrip helloPaper.abstract ∧
    generate_simple_summary helloPaper ≠ helloPaper.abstract := by
  refine ⟨by decide, by decide, by decide, by decide⟩

/-- C4 (amended): for every paper record whose abstract has fewer than 3
`". "`-separated sentences, the extractive summary generator returns the
full abstract unchanged when the abstract ends with `"."`, and the full
abstract with a single `"."` appended otherwise; being a total function it
never raises an error. -/
theorem simple_summary_short_abstract (paper : Paper)
    (h : (pySplit paper.abstract dotSpace).length < 3) :
    generate_simple_summary paper =
      paper.abstract ++
        (if pyEndsWith paper.abstract ((".").data) then [] else ((".").data)) := by
  show pyJoin dotSpace ((pySplit paper.abstract dotSpace).take 3) ++
      (if !(pyEndsWith paper.abstract ((".").data)) then ((".").data) else []) = _
  have htake : (pySplit paper.abstract dotSpace).take 3 = pySplit paper.abstract dotSpace :=
    List.take_of_length_le (Nat.le_of_lt h)
  rw [htake, pyJoin_pySplit]
  by_cases he : pyEndsWith paper.abstract ((".").data)
  · simp [he]
  · simp [he]

/-- C4 witness: the amended statement applied to the concrete abstract
`"Hi."` (a single sentence already ending in a period). -/
theorem simple_summary_short_abstract_witness :
    generate_simple_summary
        { title := ("T").data, authors := ("A").data, subjects := ("S").data,
          abstract := ("Hi.").data, link := none, paperId := none } =
      ("Hi.").data ++
        (if pyEndsWith (("Hi.").data) ((".").data) then [] else ((".").data)) :=
  simple_summary_short_abstract _ (by decide)

/-! ## Entry Extractor: `ArxivScraper._parse_paper_data`

The HTML query API (BeautifulSoup) is an external collaborator; a listing
entry is modelled as the result of the five queries the code performs on a
`(dt, dd)` pair: each locator either finds an element (whose stripped text
/ attribute is recorded) or fails (`none`). -/

structure Entry where
  subjectsText : Option PyStr
  titleText : Option PyStr
  authorsText : Option PyStr
  linkHref : Option PyStr
  abstractText : Option PyStr
deriving DecidableEq

/-- Subjects field of an entry: located text with the `"Subjects:"` marker
removed, or the literal placeholder. -/
def subjects_of (e : Entry) : PyStr :=
  match e.subjectsText with
  | some s => pyReplace s (("Subjects:").data) []
  | none => ("Subjects not found").data

/-- Topic filter: `topic.lower() in subjects_text.lower()`. -/
def entryMatches (e : Entry) (topic : PyStr) : Bool :=
  pyContains (pyLower (subjects_of e)) (pyLower topic)

/-- The paper dict built for a matching entry. -/
def mkPaperOfEntry (e : Entry) : Paper :=
  let title :=
    match e.titleText with
    | some s => pyReplace s (("Title:").data) []
    | none => ("Title not found").data
  let authors :=
    match e.authorsText with
    | some s => pyReplace s (("Authors:").data) []
    | none => ("Authors not found").data
  let link :=
    match e.linkHref with
    | some href => ("https://arxiv.org").data ++ href
    | none => ("Link not found").data
  let paperId :=
    if pyContains link (("arxiv.org/abs/").data) then
      some ((pySplit link (("/").data)).getLastD [])
    else none
  { title := title, authors := authors, subjects := subjects_of e,
    abstract := (match e.abstractText with
                 | some s => s
                 | none => ("Abstract not found").data),
    link := some link, paperId := paperId }

/-- Loop body of `_parse_paper_data`: append each matching entry's record
and break once `max_papers_per_topic` records are accumulated. -/
def parse_paper_data_loop (topic : PyStr) (maxPapers : Nat) :
    List Entry → List Paper → List Paper
  | [], papers => papers
  | e :: rest, papers =>
    if entryMatches e topic then
      let papers2 := papers ++ [mkPaperOfEntry e]
      if maxPapers ≤ papers2.length then papers2
      else parse_paper_data_loop topic maxPapers rest papers2
    else parse_paper_data_loop topic maxPapers rest papers

/-- Embedding of `ArxivScraper._parse_paper_data` over the abstract DOM
view (an empty listing yields no `(dt, dd)` pairs, so the code's early
return on falsy content is subsumed by the empty entry list). -/
def parse_paper_data (entries : List Entry) (topic : PyStr) (maxPapers : Nat) :
    List Paper :=
  parse_paper_data_loop topic maxPapers entries []

/-- Number of entries whose subjects match the topic. -/
def matchCount (entries : List Entry) (topic : PyStr) : Nat :=
  (entries.filter (fun e => entryMatches e topic)).length

theorem parse_loop_length (topic : PyStr) (maxPapers : Nat) (entries : List Entry)
    (acc : List Paper) (hacc : acc.length < maxPapers) :
    (parse_paper_data_loop topic maxPapers entries acc).length =
      min maxPapers (acc.length + matchCount entries topic) := by
  induction entries generalizing acc with
  | nil =>
    simp only [parse_paper_data_loop, matchCount, List.filter_nil, List.length_nil]
    omega
  | cons e rest ih =>
    rw [parse_paper_data_loop]
    by_cases hm : entryMatches e topic
    · simp only [hm, if_pos]
      have hcount : matchCount (e :: rest) topic = 1 + matchCount rest topic := by
        simp [matchCount, hm]
        omega
      by_cases hstop : maxPapers ≤ (acc ++ [mkPaperOfEntry e]).length
      · simp only [hstop, if_pos]
        simp only [List.length_append, List.length_cons, List.length_nil] at hstop ⊢
        rw [hcount]
        omega
      · simp only [hstop, if_neg, not_false_iff]
        have hlt : (acc ++ [mkPaperOfEntry e]).length < maxPapers := Nat.lt_of_not_le hstop
        rw [ih _ hlt, hcount]
        simp only [List.length_append, List.length_cons, List.length_nil]
        omega
    · simp only [hm, if_neg, Bool.false_eq_true, not_false_iff]
      have hcount : matchCount (e :: rest) topic = matchCount rest topic := by
        simp [matchCount, hm]
      rw [ih _ hacc, hcount]

/-- An entry whose subjects line matches topic `"x"`. -/
def entryX : Entry :=
  { subjectsText := some (("x").data), titleText := some (("T").data),
    authorsText := some (("A").data), linkHref := some (("/abs/1").data),
    abstractText := some (("B").data) }

/-- C6 counterexample: with `maxPapersPerTopic = 0` and one matching entry
(more entries than the cap), extraction returns 1 record, not exactly 0:
the cap check runs only after a record has been appended. -/
theorem parse_paper_data_cap_zero :
    0 < matchCount [entryX] (("x").data) ∧
    (parse_paper_data [entryX] (("x").data) 0).length = 1 ∧
    (parse_paper_data [entryX] (("x").data) 0).length ≠ 0 := by
  refine ⟨by decide, by decide, by decide⟩

/-- C6 (amended): for every `maxPapersPerTopic` value `N ≥ 1` and every
listing content containing more than `N` entries whose subjects match the
topic, extraction returns exactly `N` records, stopping accumulation once
`N` records have been collected. -/
theorem parse_paper_data_cap (entries : List Entry) (topic : PyStr) (maxPapers : Nat)
    (hpos : 1 ≤ maxPapers) (hmore : maxPapers < matchCount entries topic) :
    (parse_paper_data entries topic maxPapers).length = maxPapers := by
  unfold parse_paper_data
  rw [parse_loop_length topic maxPapers entries [] (by simpa using hpos)]
  simp only [List.length_nil, Nat.zero_add]
  omega

/-- C6 witness: the amended statement at cap 1 with two matching entries. -/
theorem parse_paper_data_cap_witness :
    (parse_paper_data [entryX, entryX] (("x").data) 1).length = 1 :=
  parse_paper_data_cap [entryX, entryX] (("x").data) 1 (by decide) (by decide)

/-- An entry that passes the topic filter but whose located title element
has text `"Title:"`, so that marker removal leaves the empty string. -/
def entryEmptyTitle : Entry :=
  { subjectsText := some (("x").data), titleText := some (("Title:").data),
    authorsText := none, linkHref := none, abstractText := some (("B").data) }

/-- C9 counterexample: an entry passing the topic filter whose located
title element's text is exactly the `"Title:"` marker produces a record
with an empty title — the "not found" placeholder protects only a failed
locator, not a located element whose processed text is empty. -/
theorem parse_paper_data_empty_title :
    (parse_paper_data [entryEmptyTitle] (("x").data) 100).map Paper.title = [[]] := by
  decide

/-! ## Pipeline orchestration: `ArxivScraper.scrape_papers`

The single shared fetch is an external collaborator: its outcome is either
`none` (transport failure or non-success status, where
`_fetch_arxiv_page` returns `None`) or `some` content, modelled directly
as the listing's abstract DOM view.  The timestamp is the wall-clock
parameter.  Rendering is modelled by the artifact name `_create_pdf`
builds; the outcome records each render invocation that wrote a file and
each topic for which extraction ran. -/

/-- Artifact name built by `_create_pdf`, and its empty-string sentinel on
an empty record list (the no-op branch that logs and writes nothing). -/
def create_pdf_path (papers : List Paper) (topic ts : PyStr) : PyStr :=
  if papers = [] then []
  else
    ("arxiv_papers_").data ++ ts ++ [Char.ofNat 95] ++
      pyReplace topic ((" ").data) (("_").data) ++ (".pdf").data

/-- Observable outcome of one `scrape_papers` run: the returned
topic-to-path mapping, the render invocations that created a file, and the
topics for which `_parse_paper_data` was invoked. -/
structure ScrapeOutcome where
  results : List (PyStr × PyStr)
  renders : List (PyStr × PyStr)
  extractedTopics : List PyStr
deriving DecidableEq

/-- Per-topic loop of `scrape_papers`. -/
def scrape_loop (entries : List Entry) (maxPapers : Nat) (ts : PyStr) :
    List PyStr → ScrapeOutcome → ScrapeOutcome
  | [], st => st
  | topic :: rest, st =>
    let papers := parse_paper_data entries topic maxPapers
    let st1 := { st with extractedTopics := st.extractedTopics ++ [topic] }
    if papers = [] then scrape_loop entries maxPapers ts rest st1
    else
      let path := create_pdf_path papers topic ts
      let st2 := { st1 with renders := st1.renders ++ [(topic, path)] }
      if path = [] then scrape_loop entries maxPapers ts rest st2
      else
        scrape_loop entries maxPapers ts rest
          { st2 with results := st2.results ++ [(topic, path)] }

/-- Embedding of `ArxivScraper.scrape_papers`: one shared fetch; on fetch
failure return the empty mapping before any topic is processed; otherwise
extract and render each topic, recording a result only for topics whose
extraction was non-empty and whose render returned a non-empty path. -/
def scrape_papers (fetched : Option (List Entry)) (topics : List PyStr)
    (maxPapers : Nat) (ts : PyStr) : ScrapeOutcome :=
  match fetched with
  | none => { results := [], renders := [], extractedTopics := [] }
  | some entries =>
    scrape_loop entries maxPapers ts topics
      { results := [], renders := [], extractedTopics := [] }

theorem parse_loop_no_match (topic : PyStr) (maxPapers : Nat) (entries : List Entry)
    (acc : List Paper) (h : matchCount entries topic = 0) :
    parse_paper_data_loop topic maxPapers entries acc = acc := by
  induction entries generalizing acc with
  | nil => rw [parse_paper_data_loop]
  | cons e rest ih =>
    have hm : entryMatches e topic = false := by
      by_contra hc
      simp only [Bool.not_eq_false] at hc
      simp [matchCount, List.filter_cons, hc] at h
    have hrest : matchCount rest topic = 0 := by
      simpa [matchCount, List.filter_cons, hm] using h
    rw [parse_paper_data_loop]
    simp only [hm, Bool.false_eq_true, if_neg, not_false_iff]
    exact ih acc hrest

/-- Zero matching entries yield an empty extraction. -/
theorem parse_paper_data_no_match (entries : List Entry) (topic : PyStr)
    (maxPapers : Nat) (h : matchCount entries topic = 0) :
    parse_paper_data entries topic maxPapers = [] :=
  parse_loop_no_match topic maxPapers entries [] h

theorem scrape_loop_absent (entries : List Entry) (maxPapers : Nat) (ts : PyStr)
    (tpc : PyStr) (h : matchCount entries tpc = 0) (topics : List PyStr)
    (st : ScrapeOutcome)
    (hres : ∀ p ∈ st.results, p.1 ≠ tpc) (hrend : ∀ p ∈ st.renders, p.1 ≠ tpc) :
    (∀ p ∈ (scrape_loop entries maxPapers ts topics st).results, p.1 ≠ tpc) ∧
    (∀ p ∈ (scrape_loop entries maxPapers ts topics st).renders, p.1 ≠ tpc) := by
  induction topics generalizing st with
  | nil => exact ⟨hres, hrend⟩
  | cons topic rest ih =>
    rw [scrape_loop]
    by_cases htop : topic = tpc
    · subst htop
      have hempty : parse_paper_data entries topic maxPapers = [] :=
        parse_paper_data_no_match entries topic maxPapers h
      simp only [hempty, if_pos]
      exact ih _ hres hrend
    · by_cases hpempty : parse_paper_data entries topic maxPapers = []
      · simp only [hpempty, if_pos]
        exact ih _ hres hrend
      · simp only [hpempty, if_neg, not_false_iff]
        by_cases hpath : create_pdf_path (parse_paper_data entries topic maxPapers) topic ts = []
        · simp only [hpath, if_pos]
          refine ih _ hres ?_
          intro p hp
          simp only [List.mem_append, List.mem_singleton] at hp
          rcases hp with hp | hp
          · exact hrend p hp
          · subst hp; exact htop
        · simp only [hpath, if_neg, not_false_iff]
          refine ih _ ?_ ?_
          · intro p hp
            simp only [List.mem_append, List.mem_singleton] at hp
            rcases hp with hp | hp
            · exact hres p hp
            · subst hp; exact htop
          · intro p hp
            simp only [List.mem_append, List.mem_singleton] at hp
            rcases hp with hp | hp
            · exact hrend p hp
            · subst hp; exact htop

/-- C7: for every topic with zero matching entries in the fetched
content, the result mapping of `scrape_papers` has no entry for that
topic, no render invocation is made for it (so no artifact file is
created for it), and the renderer applied to an empty record list is a
no-op returning the empty-string sentinel. -/
theorem scrape_papers_topic_absent (entries : List Entry) (topics : List PyStr)
    (maxPapers : Nat) (ts : PyStr) (tpc : PyStr)
    (h : matchCount entries tpc = 0) :
    (∀ p ∈ (scrape_papers (some entries) topics maxPapers ts).results, p.1 ≠ tpc) ∧
    (∀ p ∈ (scrape_papers (some entries) topics maxPapers ts).renders, p.1 ≠ tpc) ∧
    create_pdf_path [] tpc ts = [] := by
  refine ⟨?_, ?_, rfl⟩
  · exact (scrape_loop_absent entries maxPapers ts tpc h topics _
      (by intro p hp; simp at hp) (by intro p hp; simp at hp)).1
  · exact (scrape_loop_absent entries maxPapers ts tpc h topics _
      (by intro p hp; simp at hp) (by intro p hp; simp at hp)).2

/-- C7 witness: a listing whose only entry is about subjects `"x"`
contains zero matches for topic `"chemistry"`, so a run over topics
`["x", "chemistry"]` reports and renders nothing for `"chemistry"`. -/
theorem scrape_papers_topic_absent_witness :
    (∀ p ∈ (scrape_papers (some [entryX]) [("x").data, ("chemistry").data] 100
        (("01012024_0900").data)).results, p.1 ≠ ("chemistry").data) ∧
    (∀ p ∈ (scrape_papers (some [entryX]) [("x").data, ("chemistry").data] 100
        (("01012024_0900").data)).renders, p.1 ≠ ("chemistry").data) ∧
    create_pdf_path [] (("chemistry").data) (("01012024_0900").data) = [] :=
  scrape_papers_topic_absent [entryX] [("x").data, ("chemistry").data] 100
    (("01012024_0900").data) (("chemistry").data) (by decide)

/-- C8: when the single shared fetch fails (transport failure or
non-success status, where `_fetch_arxiv_page` returns `None`),
`scrape_papers` returns the empty mapping, extracts no topic, performs no
render, and creates no artifact file, for every topic list. -/
theorem scrape_papers_fetch_failure (topics : List PyStr) (maxPapers : Nat)
    (ts : PyStr) :
    scrape_papers none topics maxPapers ts =
      { results := [], renders := [], extractedTopics := [] } := rfl

/-! ## Configuration loading: `ArxivScheduler._load_config` -/

/-- A JSON scalar as stored in the configuration file. -/
inductive ConfigVal where
  | str (s : PyStr)
  | num (n : Int)
  | boolean (b : Bool)
  | null
deriving DecidableEq

/-- State of the configuration file on disk. `corrupt raw` is a file that
exists but whose open or `json.load` raises (unreadable or invalid JSON),
with `raw` its current on-disk contents. -/
inductive ConfigFile where
  | absent
  | corrupt (raw : PyStr)
  | wellFormed (obj : List (PyStr × ConfigVal))
deriving DecidableEq

/-- The `default_config` dict of `_load_config`. -/
def default_config : List (PyStr × ConfigVal) :=
  [((("scrape_schedule").data), ConfigVal.str (("09:00").data)),
   ((("summary_schedule").data), ConfigVal.str (("10:00").data)),
   ((("use_ai_summaries").data), ConfigVal.boolean false),
   ((("openai_api_key").data), ConfigVal.null),
   ((("max_papers_per_topic").data), ConfigVal.num 100),
   ((("arxiv_category").data), ConfigVal.str (("cs").data)),
   ((("log_level").data), ConfigVal.str (("INFO").data))]

/-- First value bound to `key` in an association list (Python dict lookup;
keys of a Python dict are unique). -/
def dictGet (obj : List (PyStr × ConfigVal)) (key : PyStr) : Option ConfigVal :=
  match obj with
  | [] => none
  | p :: rest => if p.1 = key then some p.2 else dictGet rest key

/-- Python `{**d, **j}`: keys of `d` in order, with values overridden by
`j`, followed by keys only in `j`, in `j`'s order. -/
def dictMerge (d j : List (PyStr × ConfigVal)) : List (PyStr × ConfigVal) :=
  d.map (fun p => (p.1, (dictGet j p.1).getD p.2)) ++
    j.filter (fun q => dictGet d q.1 = none)

/-- Embedding of `ArxivScheduler._load_config` as a state transformer on
the configuration file: returns the loaded configuration and the file's
new on-disk state.  When the file exists and loads, the merged dict is
returned and the file is untouched; when it is absent, or exists but
loading raises, the default configuration is returned and written to the
file (the write is modelled as succeeding). -/
def load_config : ConfigFile → (List (PyStr × ConfigVal)) × ConfigFile
  | ConfigFile.wellFormed obj => (dictMerge default_config obj, ConfigFile.wellFormed obj)
  | ConfigFile.corrupt _ => (default_config, ConfigFile.wellFormed default_config)
  | ConfigFile.absent => (default_config, ConfigFile.wellFormed default_config)

/-- C10: when the configuration file exists but loading it raises, the
loader does not merely fall back to the in-memory defaults: it also
rewrites the file on disk with the default configuration, discarding the
previous contents — the resulting file state is the default configuration
regardless of what the corrupt file held, and differs from every corrupt
state. -/
theorem load_config_overwrites_corrupt (raw : PyStr) :
    load_config (ConfigFile.corrupt raw) =
      (default_config, ConfigFile.wellFormed default_config) ∧
    (load_config (ConfigFile.corrupt raw)).2 ≠ ConfigFile.corrupt raw := by
  exact ⟨rfl, by intro h; exact ConfigFile.noConfusion h⟩

/-! ## Artifact Catalog: name decoding and latest-artifact selection

`summarize_latest_papers` decodes `(date_str, topic)` from each artifact
file name with `re.search(r'arxiv_papers_(\d+)_(.+)\.pdf', name)`
(`summarize_papers` uses the same pattern without capturing the digits),
groups by decoded topic, sorts each group's `(date_str, path)` pairs with
`files.sort(reverse=True)` and picks the head.  The pattern is embedded
directly: the greedy `\d+` takes the maximal digit run (shorter runs are
followed by a digit, never `_`, so backtracking cannot help), and the
greedy `(.+)\.pdf` takes the longest newline-free prefix followed by the
literal `".pdf"`. -/

/-- Greedy `(.+)\.pdf`:`.` does not match a newline, so the group is the
longest candidate within the newline-free prefix; candidates are tried
longest first. -/
def lastPdfSplit (s : PyStr) : Nat → Option PyStr
  | 0 => none
  | k + 1 =>
    if ((".pdf").data).isPrefixOf (s.drop (k + 1)) then some (s.take (k + 1))
    else lastPdfSplit s k

/-- Match of `(.+)\.pdf` against `s` (anchored at the start of `s`). -/
def greedyDotPdf (s : PyStr) : Option PyStr :=
  lastPdfSplit s ((s.takeWhile (fun c => c ≠ ('\n'))).length)

/-- Match of `arxiv_papers_(\d+)_(.+)\.pdf` anchored at the start of `s`,
returning the two groups. -/
def matchPapersAt (s : PyStr) : Option (PyStr × PyStr) :=
  if (("arxiv_papers_").data).isPrefixOf s then
    let rest := s.drop (("arxiv_papers_").data).length
    let ds := rest.takeWhile Char.isDigit
    if ds = [] then none
    else
      match rest.drop ds.length with
      | c :: rest3 =>
        if c = ('_') then (greedyDotPdf rest3).map (fun g => (ds, g)) else none
      | [] => none
  else none

/-- `re.search` for the pattern: try each start position left to right. -/
def searchPapersName : PyStr → Option (PyStr × PyStr)
  | [] =>
    match matchPapersAt [] with
    | some g => some g
    | none => none
  | s@(_ :: rest) =>
    match matchPapersAt s with
    | some g => some g
    | none => searchPapersName rest

theorem searchPapersName_of_match (s : PyStr) (g : PyStr × PyStr)
    (h : matchPapersAt s = some g) : searchPapersName s = some g := by
  cases s with
  | nil => rw [searchPapersName, h]
  | cons c rest => rw [searchPapersName, h]

/-- Decoding in `summarize_latest_papers`:
`date_str = m.group(1)`, `topic = m.group(2).replace('_', ' ')`. -/
def decode_latest_name (name : PyStr) : Option (PyStr × PyStr) :=
  (searchPapersName name).map
    (fun g => (g.1, pyReplace g.2 (("_").data) ((" ").data)))

/-- Decoding in `summarize_papers`: the same pattern with only the topic
group captured; an unmatched name yields the topic `"Unknown"`. -/
def decode_topic_summarize (name : PyStr) : PyStr :=
  match searchPapersName name with
  | some g => pyReplace g.2 (("_").data) ((" ").data)
  | none => ("Unknown").data

/-- Python string `<` (lexicographic by code point). -/
def pyStrLtB : PyStr → PyStr → Bool
  | [], [] => false
  | [], _ :: _ => true
  | _ :: _, [] => false
  | a :: s, b :: t => if a < b then true else if b < a then false else pyStrLtB s t

/-- Python string `<=` (lexicographic by code point). -/
def pyStrLeB : PyStr → PyStr → Bool
  | [], _ => true
  | _ :: _, [] => false
  | a :: s, b :: t => if a < b then true else if b < a then false else pyStrLeB s t

/-- Python tuple comparison on `(date_str, path)` pairs. -/
def pyPairLeB (p q : PyStr × PyStr) : Bool :=
  if pyStrLtB p.1 q.1 then true
  else if pyStrLtB q.1 p.1 then false
  else pyStrLeB p.2 q.2

/-- Descending tuple order used by `files.sort(reverse=True)`. -/
def pairDescOrder (p q : PyStr × PyStr) : Prop := pyPairLeB q p = true

instance : DecidableRel pairDescOrder :=
  fun p q => inferInstanceAs (Decidable (pyPairLeB q p = true))

/-- Python `files.sort(reverse=True)`: a stable sort, descending under
the tuple order (any stable sort computes the same list as Python's
stable sort). -/
def files_sort_desc (files : List (PyStr × PyStr)) : List (PyStr × PyStr) :=
  files.insertionSort pairDescOrder

/-- `files.sort(reverse=True); latest_file = files[0]`. -/
def select_latest (files : List (PyStr × PyStr)) : Option (PyStr × PyStr) :=
  (files_sort_desc files).head?

/-- The encoded `ddMMyyyy_HHmm` timestamp of a grammar-conforming
artifact name: the 13 characters after the 13-character kind prefix. -/
def tsOf (name : PyStr) : PyStr := (name.drop 13).take 13

/-- Collection-artifact name with date group `d`, time group `h` and
underscored topic `t`. -/
def mkPapersName (d h t : PyStr) : PyStr :=
  ("arxiv_papers_").data ++ d ++ [('_')] ++ h ++ [('_')] ++ t ++ (".pdf").data

/-- Conformance of the groups of an artifact name to the name grammar:
8-digit date, 4-digit time, non-empty topic free of newlines. -/
def WfParts (d h t : PyStr) : Prop :=
  d.length = 8 ∧ (∀ c ∈ d, c.isDigit) ∧ h.length = 4 ∧ (∀ c ∈ h, c.isDigit) ∧
    t ≠ [] ∧ ('\n') ∉ t

theorem pyStrLtB_irrefl (s : PyStr) : pyStrLtB s s = false := by
  induction s with
  | nil => rfl
  | cons a s ih => simp [pyStrLtB, lt_irrefl, ih]

theorem pyStrLeB_refl (s : PyStr) : pyStrLeB s s = true := by
  induction s with
  | nil => rfl
  | cons a s ih => simp [pyStrLeB, lt_irrefl, ih]

theorem pyStrLeB_total (s t : PyStr) : pyStrLeB s t = true ∨ pyStrLeB t s = true := by
  induction s generalizing t with
  | nil => left; rfl
  | cons a s ih =>
    cases t with
    | nil => right; rfl
    | cons b t =>
      rcases lt_trichotomy a b with hab | hab | hab
      · left; simp [pyStrLeB, hab]
      · subst hab
        rcases ih t with h | h
        · left; simp [pyStrLeB, lt_irrefl, h]
        · right; simp [pyStrLeB, lt_irrefl, h]
      · right; simp [pyStrLeB, hab]

theorem pyStr_eq_of_not_lt (s t : PyStr) (h1 : pyStrLtB s t = false)
    (h2 : pyStrLtB t s = false) : s = t := by
  induction s generalizing t with
  | nil =>
    cases t with
    | nil => rfl
    | cons b t => simp [pyStrLtB] at h1
  | cons a s ih =>
    cases t with
    | nil => simp [pyStrLtB] at h2
    | cons b t =>
      rcases lt_trichotomy a b with hab | hab | hab
      · simp [pyStrLtB, hab] at h1
      · subst hab
        simp only [pyStrLtB, lt_irrefl, if_false] at h1 h2
        rw [ih t h1 h2]
      · simp [pyStrLtB, hab] at h2

theorem pyStrLtB_trans (s t u : PyStr) (h1 : pyStrLtB s t = true)
    (h2 : pyStrLtB t u = true) : pyStrLtB s u = true := by
  induction s generalizing t u with
  | nil =>
    cases u with
    | nil =>
      cases t with
      | nil => exact h1
      | cons b t => simp [pyStrLtB] at h2
    | cons c u => rfl
  | cons a s ih =>
    cases t with
    | nil => simp [pyStrLtB] at h1
    | cons b t =>
      cases u with
      | nil => simp [pyStrLtB] at h2
      | cons c u =>
        simp only [pyStrLtB] at h1 h2 ⊢
        rcases lt_trichotomy a b with hab | hab | hab
        · rcases lt_trichotomy b c with hbc | hbc | hbc
          · simp [lt_trans hab hbc]
          · subst hbc; simp [hab]
          · rw [if_neg (not_lt.mpr (le_of_lt hbc)), if_pos hbc] at h2
            exact absurd h2 (by simp)
        · subst hab
          rcases lt_trichotomy a c with hac | hac | hac
          · simp [hac]
          · subst hac
            simp only [lt_irrefl, if_false] at h1 h2 ⊢
            exact ih t u h1 h2
          · rw [if_neg (not_lt.mpr (le_of_lt hac)), if_pos hac] at h2
            exact absurd h2 (by simp)
        · rw [if_neg (not_lt.mpr (le_of_lt hab)), if_pos hab] at h1
          exact absurd h1 (by simp)

theorem pyStrLeB_of_lt (s t : PyStr) (h : pyStrLtB s t = true) : pyStrLeB s t = true := by
  induction s generalizing t with
  | nil => rfl
  | cons a s ih =>
    cases t with
    | nil => simp [pyStrLtB] at h
    | cons b t =>
      simp only [pyStrLtB] at h
      simp only [pyStrLeB]
      rcases lt_trichotomy a b with hab | hab | hab
      · simp [hab]
      · subst hab
        simp only [lt_irrefl, if_false] at h ⊢
        exact ih t h
      · rw [if_neg (not_lt.mpr (le_of_lt hab)), if_pos hab] at h
        exact absurd h (by simp)

theorem pyStrLeB_iff (s t : PyStr) :
    pyStrLeB s t = true ↔ (pyStrLtB s t = true ∨ s = t) := by
  constructor
  · intro h
    by_cases hlt : pyStrLtB s t = true
    · exact Or.inl hlt
    · by_cases hgt : pyStrLtB t s = true
      · exfalso
        induction s generalizing t with
        | nil => cases t with
          | nil => simp [pyStrLtB] at hgt
          | cons b t => simp [pyStrLtB] at hlt
        | cons a s ih =>
          cases t with
          | nil => simp [pyStrLeB] at h
          | cons b t =>
            simp only [pyStrLtB] at hlt hgt
            simp only [pyStrLeB] at h
            rcases lt_trichotomy a b with hab | hab | hab
            · simp [hab] at hlt
            · subst hab
              simp only [lt_irrefl, if_false] at hlt hgt h
              exact ih t h hlt hgt
            · simp [hab] at hgt
              rw [if_neg (not_lt.mpr (le_of_lt hab)), if_pos hab] at h
              exact absurd h (by simp)
      · exact Or.inr (pyStr_eq_of_not_lt s t
          (Bool.not_eq_true _ ▸ hlt) (Bool.not_eq_true _ ▸ hgt))
  · intro h
    rcases h with h | h
    · exact pyStrLeB_of_lt s t h
    · subst h; exact pyStrLeB_refl s

theorem pyStrLeB_trans (s t u : PyStr) (h1 : pyStrLeB s t = true)
    (h2 : pyStrLeB t u = true) : pyStrLeB s u = true := by
  rcases (pyStrLeB_iff s t).mp h1 with hlt1 | heq1
  · rcases (pyStrLeB_iff t u).mp h2 with hlt2 | heq2
    · exact pyStrLeB_of_lt s u (pyStrLtB_trans s t u hlt1 hlt2)
    · rw [← heq2]; exact pyStrLeB_of_lt s t hlt1
  · subst heq1; exact h2

theorem pyPairLeB_refl (p : PyStr × PyStr) : pyPairLeB p p = true := by
  simp [pyPairLeB, pyStrLtB_irrefl, pyStrLeB_refl]

theorem pyPairLeB_total (p q : PyStr × PyStr) :
    pyPairLeB p q = true ∨ pyPairLeB q p = true := by
  unfold pyPairLeB
  by_cases h1 : pyStrLtB p.1 q.1 = true
  · left; simp [h1]
  · by_cases h2 : pyStrLtB q.1 p.1 = true
    · right; simp [h2]
    · have hf1 : pyStrLtB p.1 q.1 = false := Bool.not_eq_true _ ▸ h1
      have hf2 : pyStrLtB q.1 p.1 = false := Bool.not_eq_true _ ▸ h2
      rcases pyStrLeB_total p.2 q.2 with h | h
      · left; simp [hf1, hf2, h]
      · right; simp [hf1, hf2, h]

theorem pyPairLeB_trans (p q r : PyStr × PyStr) (h1 : pyPairLeB p q = true)
    (h2 : pyPairLeB q r = true) : pyPairLeB p r = true := by
  unfold pyPairLeB at h1 h2 ⊢
  by_cases hpq : pyStrLtB p.1 q.1 = true
  · by_cases hqr : pyStrLtB q.1 r.1 = true
    · simp [pyStrLtB_trans _ _ _ hpq hqr]
    · by_cases hrq : pyStrLtB r.1 q.1 = true
      · simp [hqr, hrq] at h2
      · have := pyStr_eq_of_not_lt q.1 r.1 (Bool.not_eq_true _ ▸ hqr) (Bool.not_eq_true _ ▸ hrq)
        rw [← this]
        simp [hpq]
  · by_cases hqp : pyStrLtB q.1 p.1 = true
    · simp [hpq, hqp] at h1
    · have hpq1 := pyStr_eq_of_not_lt p.1 q.1 (Bool.not_eq_true _ ▸ hpq) (Bool.not_eq_true _ ▸ hqp)
      rw [hpq1]
      simp only [hpq, hqp, if_neg, Bool.false_eq_true, not_false_iff, if_false] at h1
      by_cases hqr : pyStrLtB q.1 r.1 = true
      · simp [hqr]
      · by_cases hrq : pyStrLtB r.1 q.1 = true
        · simp [hqr, hrq] at h2
        · simp only [hqr, hrq, if_neg, Bool.false_eq_true, not_false_iff, if_false] at h2 ⊢
          exact pyStrLeB_trans _ _ _ h1 h2

/-- The file selected by the catalog is a member of the group and is
greatest under the Python tuple order. -/
theorem select_latest_max (files : List (PyStr × PyStr)) (sel : PyStr × PyStr)
    (h : select_latest files = some sel) :
    sel ∈ files ∧ ∀ p ∈ files, pyPairLeB p sel = true := by
  unfold select_latest files_sort_desc at h
  haveI : IsTotal (PyStr × PyStr) pairDescOrder := by
    constructor
    intro a b
    rcases pyPairLeB_total a b with hh | hh
    · exact Or.inr hh
    · exact Or.inl hh
  haveI : IsTrans (PyStr × PyStr) pairDescOrder := by
    constructor
    intro a b c h1 h2
    exact pyPairLeB_trans c b a h2 h1
  have hsorted := List.sorted_insertionSort pairDescOrder files
  match hms : files.insertionSort pairDescOrder with
  | [] => rw [hms] at h; exact absurd h (by simp)
  | x :: xs =>
    rw [hms] at h hsorted
    simp only [List.head?_cons, Option.some.injEq] at h
    have hmem : sel ∈ files := by
      have hx : sel ∈ files.insertionSort pairDescOrder := by
        rw [hms, ← h]; exact List.mem_cons_self _ _
      exact (List.mem_insertionSort pairDescOrder).mp hx
    refine ⟨hmem, ?_⟩
    intro p hp
    have hpms : p ∈ files.insertionSort pairDescOrder :=
      (List.mem_insertionSort pairDescOrder).mpr hp
    rw [hms] at hpms
    rcases List.mem_cons.mp hpms with hph | hpt
    · rw [hph, ← h]; exact pyPairLeB_refl x
    · rw [← h]
      exact List.rel_of_pairwise_cons hsorted hpt

theorem pyReplaceF_single (c c' : Char) (fuel : Nat) (s : PyStr)
    (hfuel : s.length ≤ fuel) :
    pyReplaceF [c] [c'] fuel s = s.map (fun x => if x = c then c' else x) := by
  induction fuel generalizing s with
  | zero =>
    have : s = [] := List.length_eq_zero.mp (Nat.le_zero.mp hfuel)
    subst this
    rfl
  | succ fuel ih =>
    cases s with
    | nil => rfl
    | cons c0 rest =>
      rw [pyReplaceF]
      by_cases hc : c = c0
      · subst hc
        have hpre : [c].isPrefixOf (c :: rest) = true := by
          simp [List.isPrefixOf]
        rw [if_pos hpre]
        simp only [List.length_cons] at hfuel
        simp only [List.length_cons, List.length_nil, Nat.zero_add, List.drop_succ_cons,
          List.drop_zero, List.singleton_append, List.map_cons, if_true, ite_true,
          eq_self_iff_true]
        rw [ih rest (by omega)]
      · have hpre : [c].isPrefixOf (c0 :: rest) = false := by
          simp [List.isPrefixOf, hc]
        rw [if_neg (by simp [hpre])]
        simp only [List.length_cons] at hfuel
        rw [ih rest (by omega)]
        simp only [List.map_cons]
        rw [if_neg (fun he => hc he.symm)]

/-- The underscore-to-space mapping performed by `.replace('_', ' ')`. -/
def spaceUnder (c : Char) : Char := if c = ('_') then (' ') else c

theorem pyReplace_under_space (s : PyStr) :
    pyReplace s (("_").data) ((" ").data) = s.map spaceUnder := by
  have h1 : (("_").data : PyStr) = [('_')] := rfl
  have h2 : ((" ").data : PyStr) = [(' ')] := rfl
  rw [pyReplace, h1, h2, if_neg (by simp)]
  exact pyReplaceF_single _ _ s.length s (Nat.le_refl _)

theorem map_spaceUnder_digits (d : PyStr) (h : ∀ c ∈ d, c.isDigit) :
    d.map spaceUnder = d := by
  induction d with
  | nil => rfl
  | cons a rest ih =>
    have ha := h a (by simp)
    have hne : a ≠ ('_') := by
      intro he
      rw [he] at ha
      exact absurd ha (by decide)
    simp only [List.map_cons, spaceUnder, if_neg hne]
    rw [ih (fun c hc => h c (by simp [hc]))]

theorem takeWhile_digits (d : PyStr) (hd : ∀ c ∈ d, c.isDigit) (r : PyStr) :
    (d ++ ('_') :: r).takeWhile Char.isDigit = d := by
  rw [List.takeWhile_append_of_pos hd, List.takeWhile_cons_of_neg (by decide)]
  simp

theorem lastPdfSplit_exact (s : PyStr) (k : Nat)
    (hlow : s.length - 4 ≤ k) (hpos : 1 ≤ s.length - 4)
    (hsuf : ((".pdf").data).isPrefixOf (s.drop (s.length - 4)) = true) :
    lastPdfSplit s k = some (s.take (s.length - 4)) := by
  induction k with
  | zero => omega
  | succ k ih =>
    rw [lastPdfSplit]
    by_cases hk : k + 1 = s.length - 4
    · rw [hk, if_pos hsuf]
    · have hgt : s.length - 4 < k + 1 := by omega
      have hlen : (s.drop (k + 1)).length < 4 := by
        simp only [List.length_drop]
        omega
      have hpre : ¬ ((".pdf").data).isPrefixOf (s.drop (k + 1)) = true := by
        intro hc
        have := (List.isPrefixOf_iff_prefix.mp hc).length_le
        rw [show ((".pdf").data : PyStr).length = 4 from rfl] at this
        omega
      rw [if_neg hpre]
      exact ih (by omega)

theorem takeWhile_ne_self (s : PyStr) (c0 : Char) (h : c0 ∉ s) :
    s.takeWhile (fun c => c ≠ c0) = s := by
  induction s with
  | nil => rfl
  | cons a rest ih =>
    have ha : a ≠ c0 := fun he => h (by simp [he])
    rw [List.takeWhile_cons_of_pos (by simp [ha])]
    rw [ih (fun hc => h (by simp [hc]))]

theorem greedyDotPdf_exact (g : PyStr) (hnl : ('\n') ∉ g) (hg : 1 ≤ g.length) :
    greedyDotPdf (g ++ (".pdf").data) = some g := by
  unfold greedyDotPdf
  have hnl2 : ('\n') ∉ g ++ (".pdf").data := by
    intro hc
    rcases List.mem_append.mp hc with hc | hc
    · exact hnl hc
    · exact absurd hc (by decide)
  rw [takeWhile_ne_self _ _ hnl2]
  have hlen : (g ++ (".pdf").data).length = g.length + 4 := by
    simp [List.length_append]
  have hsub : (g ++ (".pdf").data).length - 4 = g.length := by omega
  have hdrop : (g ++ (".pdf").data).drop ((g ++ (".pdf").data).length - 4) =
      (".pdf").data := by
    rw [hsub]
    exact List.drop_left g _
  have htake : (g ++ (".pdf").data).take ((g ++ (".pdf").data).length - 4) = g := by
    rw [hsub]
    exact List.take_left g _
  rw [lastPdfSplit_exact _ _ (by omega) (by omega)
    (by rw [hdrop]; exact List.isPrefixOf_iff_prefix.mpr (List.prefix_refl _)), htake]

theorem matchPapersAt_mk (d h t : PyStr) (hwf : WfParts d h t) :
    matchPapersAt (mkPapersName d h t) = some (d, h ++ ('_') :: t) := by
  obtain ⟨hd8, hdd, hh4, hhd, htne, htnl⟩ := hwf
  have hshape : mkPapersName d h t =
      ("arxiv_papers_").data ++ (d ++ ('_') :: (h ++ ('_') :: (t ++ (".pdf").data))) := by
    simp [mkPapersName, List.append_assoc]
  rw [hshape]
  unfold matchPapersAt
  rw [if_pos (List.isPrefixOf_iff_prefix.mpr ⟨_, rfl⟩)]
  simp only [List.drop_left]
  rw [takeWhile_digits d hdd]
  have hdne : d ≠ [] := by
    intro he
    rw [he] at hd8
    simp at hd8
  rw [if_neg hdne]
  rw [List.drop_left d _]
  simp only [if_pos rfl]
  have hgd : greedyDotPdf (h ++ ('_') :: (t ++ (".pdf").data)) = some (h ++ ('_') :: t) := by
    have hre : h ++ ('_') :: (t ++ (".pdf").data) = (h ++ ('_') :: t) ++ (".pdf").data := by
      simp [List.append_assoc]
    rw [hre]
    refine greedyDotPdf_exact _ ?_ ?_
    · intro hc
      rcases List.mem_append.mp hc with hc | hc
      · have := hhd _ hc
        rw [show ('\n') = Char.ofNat 10 from rfl] at this
        exact absurd this (by decide)
      · rcases List.mem_cons.mp hc with hc | hc
        · exact absurd hc.symm (by decide)
        · exact htnl hc
    · simp only [List.length_append, List.length_cons]
      omega
  rw [hgd]
  rfl

theorem searchPapersName_mk (d h t : PyStr) (hwf : WfParts d h t) :
    searchPapersName (mkPapersName d h t) = some (d, h ++ ('_') :: t) := by
  exact searchPapersName_of_match _ _ (matchPapersAt_mk d h t hwf)

/-- The topic string the catalog decodes from a conforming name: the time
group, a space, and the topic part with underscores mapped to spaces. -/
def spacedTopic (h t : PyStr) : PyStr := h ++ (' ') :: t.map spaceUnder

theorem decode_latest_mk (d h t : PyStr) (hwf : WfParts d h t) :
    decode_latest_name (mkPapersName d h t) = some (d, spacedTopic h t) := by
  unfold decode_latest_name
  rw [searchPapersName_mk d h t hwf]
  simp only [Option.map_some', Option.some.injEq, Prod.mk.injEq, true_and]
  rw [pyReplace_under_space]
  simp only [List.map_append, List.map_cons]
  rw [map_spaceUnder_digits h hwf.2.2.2.1]
  rfl

theorem tsOf_mk (d h t : PyStr) (hwf : WfParts d h t) :
    tsOf (mkPapersName d h t) = d ++ ('_') :: h := by
  obtain ⟨hd8, _, hh4, _, _, _⟩ := hwf
  have hshape : mkPapersName d h t =
      ("arxiv_papers_").data ++ (d ++ ('_') :: (h ++ ('_') :: (t ++ (".pdf").data))) := by
    simp [mkPapersName, List.append_assoc]
  unfold tsOf
  rw [hshape, List.drop_left' (by rfl)]
  rw [List.take_append_eq_append_take, List.take_of_length_le (by omega), hd8]
  show d ++ List.take 5 (('_') :: _) = _
  rw [List.take_succ_cons, List.take_left' hh4]

theorem pyStrLtB_append_of_lt (d1 : PyStr) (x : PyStr) :
    ∀ d2 y, d1.length = d2.length → pyStrLtB d1 d2 = true →
      pyStrLtB (d1 ++ x) (d2 ++ y) = true := by
  induction d1 with
  | nil =>
    intro d2 y hlen hlt
    cases d2 with
    | nil => simp [pyStrLtB] at hlt
    | cons b t => simp at hlen
  | cons a s ih =>
    intro d2 y hlen hlt
    cases d2 with
    | nil => simp at hlen
    | cons b t =>
      simp only [List.cons_append, pyStrLtB] at hlt ⊢
      rcases lt_trichotomy a b with hab | hab | hab
      · simp [hab]
      · subst hab
        simp only [lt_irrefl, if_false] at hlt ⊢
        exact ih t y (by simpa using hlen) hlt
      · rw [if_neg (not_lt.mpr (le_of_lt hab)), if_pos hab] at hlt
        exact absurd hlt (by simp)

/-- Collection-artifact name `arxiv_papers_01012024_0900_deep_learning.pdf`. -/
def exampleName1 : PyStr := ("arxiv_papers_01012024_0900_deep_learning.pdf").data

/-- Collection-artifact name `arxiv_papers_02012024_0900_deep_learning.pdf`. -/
def exampleName2 : PyStr := ("arxiv_papers_02012024_0900_deep_learning.pdf").data

/-- The two example artifacts as `(date_str, path)` pairs of one catalog
group. -/
def exampleFiles : List (PyStr × PyStr) :=
  [((("01012024").data), exampleName1), ((("02012024").data), exampleName2)]

/-- C2 (evaluating the code at the failing input): on the conforming name
`arxiv_papers_01012024_0900_deep_learning.pdf` the catalog decoding of
`summarize_latest_papers` yields the date-only group `"01012024"` and the
topic `"0900 deep learning"`, and the decoding of `summarize_papers`
yields the same topic: the `HHmm` group is absorbed into the topic rather
than anchored as part of the timestamp, so the decoded topic is not the
original topic `"deep learning"`. -/
theorem name_decoding_mixes_time_into_topic :
    decode_latest_name exampleName1 =
      some ((("01012024").data), (("0900 deep learning").data)) ∧
    decode_topic_summarize exampleName1 = ("0900 deep learning").data ∧
    ((("0900 deep learning").data : PyStr) ≠ ("deep learning").data) := by
  refine ⟨by decide, by decide, by decide⟩

/-- C3: for every group of conforming collection-artifact names that the
catalog decodes to the same topic, the selected latest file is a member
of the group whose encoded `ddMMyyyy_HHmm` timestamp is lexicographically
greatest; in particular, of the two artifacts with encoded timestamps
`01012024_0900` and `02012024_0900` for topic `deep learning`, the
catalog selects the second. -/
theorem catalog_selects_latest_timestamp
    (files : List (PyStr × PyStr)) (T : PyStr)
    (hconf : ∀ p ∈ files, ∃ d h t, WfParts d h t ∧ p.2 = mkPapersName d h t ∧
        decode_latest_name p.2 = some (p.1, T))
    (sel : PyStr × PyStr) (hsel : select_latest files = some sel) :
    (sel ∈ files ∧ ∀ p ∈ files, pyStrLeB (tsOf p.2) (tsOf sel.2) = true) ∧
    select_latest exampleFiles = some ((("02012024").data), exampleName2) := by
  refine ⟨?_, by decide⟩
  obtain ⟨hmem, hmax⟩ := select_latest_max files sel hsel
  refine ⟨hmem, ?_⟩
  intro p hp
  obtain ⟨dp, hp2, tp, hwfp, hnamep, hdecp⟩ := hconf p hp
  obtain ⟨ds, hs2, ts2, hwfs, hnames, hdecs⟩ := hconf sel hmem
  rw [hnamep, decode_latest_mk dp hp2 tp hwfp] at hdecp
  rw [hnames, decode_latest_mk ds hs2 ts2 hwfs] at hdecs
  simp only [Option.some.injEq, Prod.mk.injEq] at hdecp hdecs
  obtain ⟨hdP, hTP⟩ := hdecp
  obtain ⟨hdS, hTS⟩ := hdecs
  have hhh : hp2 = hs2 := by
    have hTeq : spacedTopic hp2 tp = spacedTopic hs2 ts2 := by rw [hTP, hTS]
    unfold spacedTopic at hTeq
    exact (List.append_inj hTeq (hwfp.2.2.1.trans hwfs.2.2.1.symm)).1
  have htsp : tsOf p.2 = dp ++ ('_') :: hp2 := by
    rw [hnamep]; exact tsOf_mk _ _ _ hwfp
  have htss : tsOf sel.2 = ds ++ ('_') :: hp2 := by
    rw [hnames, tsOf_mk _ _ _ hwfs, hhh]
  have hple := hmax p hp
  unfold pyPairLeB at hple
  by_cases hlt : pyStrLtB p.1 sel.1 = true
  · rw [htsp, htss]
    refine pyStrLeB_of_lt _ _ ?_
    refine pyStrLtB_append_of_lt dp _ ds _ ?_ ?_
    · rw [hwfp.1, hwfs.1]
    · rw [hdP, hdS]; exact hlt
  · by_cases hgt : pyStrLtB sel.1 p.1 = true
    · rw [if_neg (by simp [hlt]), if_pos hgt] at hple
      exact absurd hple (by simp)
    · have hdeq : p.1 = sel.1 :=
        pyStr_eq_of_not_lt _ _ (Bool.not_eq_true _ ▸ hlt) (Bool.not_eq_true _ ▸ hgt)
      have hdds : dp = ds := by rw [hdP, hdS, hdeq]
      rw [htsp, htss, hdds]
      exact pyStrLeB_refl _

/-- C3 witness: the general statement applied to the two-artifact group of
`exampleFiles`, whose members conform to the grammar and decode to the
common topic `"0900 deep learning"`; the selected latest is the second
artifact and its timestamp is greatest. -/
theorem catalog_selects_latest_timestamp_witness :
    (((("02012024").data : PyStr), exampleName2) ∈ exampleFiles ∧
      ∀ p ∈ exampleFiles, pyStrLeB (tsOf p.2) (tsOf exampleName2) = true) ∧
    select_latest exampleFiles = some ((("02012024").data), exampleName2) :=
  catalog_selects_latest_timestamp exampleFiles (("0900 deep learning").data)
    (by
      intro p hp
      simp only [exampleFiles, List.mem_cons, List.not_mem_nil, or_false] at hp
      rcases hp with hp | hp
      · subst hp
        exact ⟨(("01012024").data), (("0900").data), (("deep_learning").data),
          by unfold WfParts; decide, by decide, by decide⟩
      · subst hp
        exact ⟨(("02012024").data), (("0900").data), (("deep_learning").data),
          by unfold WfParts; decide, by decide, by decide⟩)
    ((("02012024").data), exampleName2) (by decide)

/-! ## Artifact Re-Parser: `ArxivSummarizer._parse_papers_from_pdf`

The records are recovered from the artifact's extracted text by
`re.findall` with the DOTALL pattern
`(?:^|\n)(.+?)\n(.*?Authors:.*?)(?:https://arxiv\.org\S+)\n(.*?Subjects:.*?)\n(.*?)(?:\n\n|\Z)`.
The pattern is embedded as a token list over a backtracking matcher with
Python's semantics: lazy quantifiers try shortest first, greedy ones
longest first, alternations left first, later quantifiers vary fastest,
`.` matches newlines (DOTALL), `^` only at the absolute start
(no MULTILINE), `\Z` at the absolute end. -/

/-- Python `\S` (non-whitespace). -/
def nonSpaceB (c : Char) : Bool := !(pyIsSpace c)

/-- Tokens of the re-parser's pattern. -/
inductive Tok where
  | litT (s : PyStr)
  | anyLazyStar
  | anyLazyPlus
  | nonSpacePlus
  | startOrNL
  | endOrBlank
  | openG
  | closeG
deriving DecidableEq

/-- Backtracking matcher: match the token list against `rest` (a suffix
of the subject whose total length is `origLen`), with `cur` the subject
suffix at the currently open group and `acc` the closed groups.  Returns
the suffix after the match and the captured groups.  The fuel dominates
the backtracking depth; callers supply `(rest.length + 1) * (toks.length + 2)`. -/
def reMatch (origLen : Nat) : Nat → List Tok → PyStr → Option PyStr → List PyStr →
    Option (PyStr × List PyStr)
  | 0, _, _, _, _ => none
  | fuel + 1, toks, rest, cur, acc =>
    match toks with
    | [] => some (rest, acc)
    | Tok.litT s :: tk =>
      if s.isPrefixOf rest then reMatch origLen fuel tk (rest.drop s.length) cur acc
      else none
    | Tok.anyLazyStar :: tk =>
      match reMatch origLen fuel tk rest cur acc with
      | some r => some r
      | none =>
        match rest with
        | [] => none
        | _ :: rest2 => reMatch origLen fuel (Tok.anyLazyStar :: tk) rest2 cur acc
    | Tok.anyLazyPlus :: tk =>
      match rest with
      | [] => none
      | _ :: rest2 => reMatch origLen fuel (Tok.anyLazyStar :: tk) rest2 cur acc
    | Tok.nonSpacePlus :: tk =>
      match rest with
      | [] => none
      | c :: rest2 =>
        if nonSpaceB c then
          match reMatch origLen fuel (Tok.nonSpacePlus :: tk) rest2 cur acc with
          | some r => some r
          | none => reMatch origLen fuel tk rest2 cur acc
        else none
    | Tok.startOrNL :: tk =>
      if rest.length = origLen then
        match reMatch origLen fuel tk rest cur acc with
        | some r => some r
        | none =>
          match rest with
          | c :: rest2 =>
            if c = ('\n') then reMatch origLen fuel tk rest2 cur acc else none
          | [] => none
      else
        match rest with
        | c :: rest2 =>
          if c = ('\n') then reMatch origLen fuel tk rest2 cur acc else none
        | [] => none
    | Tok.endOrBlank :: tk =>
      if (("\n\n").data).isPrefixOf rest then reMatch origLen fuel tk (rest.drop 2) cur acc
      else if rest = [] then reMatch origLen fuel tk rest cur acc
      else none
    | Tok.openG :: tk => reMatch origLen fuel tk rest (some rest) acc
    | Tok.closeG :: tk =>
      match cur with
      | some snap =>
        reMatch origLen fuel tk rest none (acc ++ [snap.take (snap.length - rest.length)])
      | none => none

/-- Scan for the leftmost match: try the current position, else advance.
Returns the suffix at the match start, the suffix after the match, and
the groups. -/
def reSearch (toks : List Tok) (origLen : Nat) : PyStr → Option (PyStr × PyStr × List PyStr)
  | [] =>
    match reMatch origLen ((0 + 1) * (toks.length + 2)) toks [] none [] with
    | some (after, caps) => some ([], after, caps)
    | none => none
  | s@(_ :: rest) =>
    match reMatch origLen ((s.length + 1) * (toks.length + 2)) toks s none [] with
    | some (after, caps) => some (s, after, caps)
    | none => reSearch toks origLen rest

/-- `re.findall` loop: collect the groups of successive non-overlapping
leftmost matches, advancing one position past an empty match. -/
def reFindAllGo (toks : List Tok) (origLen : Nat) : Nat → PyStr → List (List PyStr)
  | 0, _ => []
  | fuel + 1, rest =>
    match reSearch toks origLen rest with
    | none => []
    | some (atStart, after, caps) =>
      if after.length < atStart.length then caps :: reFindAllGo toks origLen fuel after
      else
        match atStart with
        | [] => [caps]
        | _ :: r2 => caps :: reFindAllGo toks origLen fuel r2

/-- Python `re.findall(pattern, s)` for a pattern with capture groups. -/
def reFindAll (toks : List Tok) (s : PyStr) : List (List PyStr) :=
  reFindAllGo toks s.length (s.length + 1) s

/-- The re-parser's `title_pattern`, token by token. -/
def papersPattern : List Tok :=
  [Tok.startOrNL,
   Tok.openG, Tok.anyLazyPlus, Tok.closeG,
   Tok.litT (("\n").data),
   Tok.openG, Tok.anyLazyStar, Tok.litT (("Authors:").data), Tok.anyLazyStar, Tok.closeG,
   Tok.litT (("https://arxiv.org").data), Tok.nonSpacePlus,
   Tok.litT (("\n").data),
   Tok.openG, Tok.anyLazyStar, Tok.litT (("Subjects:").data), Tok.anyLazyStar, Tok.closeG,
   Tok.litT (("\n").data),
   Tok.openG, Tok.anyLazyStar, Tok.closeG,
   Tok.endOrBlank]

/-- Match of `(https://arxiv\.org\S+)` anchored at the start of `s`. -/
def matchArxivLinkAt (s : PyStr) : Option PyStr :=
  if (("https://arxiv.org").data).isPrefixOf s then
    let run := (s.drop ((("https://arxiv.org").data).length)).takeWhile nonSpaceB
    if run = [] then none else some ((("https://arxiv.org").data) ++ run)
  else none

/-- `re.search(r"(https://arxiv\.org\S+)", s)`. -/
def searchArxivLink : PyStr → Option PyStr
  | [] =>
    match matchArxivLinkAt [] with
    | some g => some g
    | none => none
  | s@(_ :: rest) =>
    match matchArxivLinkAt s with
    | some g => some g
    | none => searchArxivLink rest

/-- Record built from one pattern match (`_parse_papers_from_pdf` loop
body): strip and label-removal of the captured groups, link search over
the authors and subjects groups, paper id from an `/abs/` link. -/
def buildPaperOfMatch (m : List PyStr) : Paper :=
  let link := searchArxivLink ((m.getD 1 []) ++ (m.getD 2 []))
  { title := pyStrip (m.getD 0 []),
    authors := pyStrip (pyReplace (pyStrip (m.getD 1 [])) (("Authors:").data) []),
    subjects := pyStrip (pyReplace (pyStrip (m.getD 2 [])) (("Subjects:").data) []),
    abstract :=
      if 3 < m.length then pyStrip (m.getD 3 []) else ("Abstract not found").data,
    link := link,
    paperId :=
      match link with
      | some l =>
        if pyContains l (("arxiv.org/abs/").data) then
          some ((pySplit l (("/").data)).getLastD [])
        else none
      | none => none }

/-- Embedding of `ArxivSummarizer._parse_papers_from_pdf` over the
extracted text (empty text yields no matches, subsuming the early
return). -/
def parse_papers_from_pdf (text : PyStr) : List Paper :=
  (reFindAll papersPattern text).map buildPaperOfMatch

/-! ## Artifact Renderer: document elements

The layout engine (ReportLab) is an external collaborator; a rendered
artifact is modelled by the ordered sequence of typed text blocks handed
to it: plain paragraphs, the hyperlink paragraph (whose text content is
the URL; the `<link>` markup is a tag, not text), and the fixed spacer. -/

inductive Elem where
  | para (text : PyStr)
  | linkPara (url : PyStr)
  | spacer
deriving DecidableEq

/-- `xml.sax.saxutils.escape`: `&` first, then `<`, then `>`. -/
def xml_escape (s : PyStr) : PyStr :=
  pyReplace (pyReplace (pyReplace s (("&").data) (("&amp;").data))
    (("<").data) (("&lt;").data)) ((">").data) (("&gt;").data)

/-- `xml.sax.saxutils.unescape`: `&lt;`, `&gt;`, then `&amp;` last. -/
def xml_unescape (s : PyStr) : PyStr :=
  pyReplace (pyReplace (pyReplace s (("&lt;").data) (("<").data))
    (("&gt;").data) ((">").data)) (("&amp;").data) (("&").data)

/-- Python `str(n)` for a natural number. -/
def pyStrNatAux : Nat → Nat → PyStr
  | 0, _ => []
  | fuel + 1, n =>
    if n < 10 then [Char.ofNat (48 + n % 10)]
    else pyStrNatAux fuel (n / 10) ++ [Char.ofNat (48 + n % 10)]

/-- Python `str(n)` for a natural number. -/
def pyStrNat (n : Nat) : PyStr := pyStrNatAux (n + 1) n

/-- Elements built by `ArxivScraper._create_pdf` (title page, then per
record the escaped title, escaped authors, hyperlink, escaped subjects,
escaped abstract, spacer).  `genOn` is the generation wall-clock string. -/
def create_pdf_elements (papers : List Paper) (topic genOn : PyStr) : List Elem :=
  [Elem.para ((("ArXiv Papers: ").data) ++ topic),
   Elem.para ((("Generated on: ").data) ++ genOn),
   Elem.para ((("Contains ").data) ++ pyStrNat papers.length ++ ((" papers").data)),
   Elem.spacer] ++
  (papers.map (fun paper =>
    [Elem.para (xml_escape paper.title),
     Elem.para (xml_escape paper.authors),
     Elem.linkPara (paper.link.getD []),
     Elem.para (xml_escape paper.subjects),
     Elem.para (xml_escape paper.abstract),
     Elem.spacer])).flatten

/-- Elements built by `ArxivSummarizer._create_summary_pdf` with
`use_ai = False` (title page, then per record the title, authors,
hyperlink when the link is present and non-empty, the `"Summary:"`
label, the extractive summary, spacer) — none of the record fields pass
through `saxutils.escape` here. -/
def create_summary_pdf_elements (papers : List Paper) (topic genOn : PyStr) : List Elem :=
  [Elem.para ((("ArXiv Papers Summary: ").data) ++ topic),
   Elem.para ((("Generated on: ").data) ++ genOn),
   Elem.para ((("Contains summaries of ").data) ++ pyStrNat papers.length ++
     ((" papers").data)),
   Elem.spacer] ++
  (papers.map (fun paper =>
    [Elem.para paper.title,
     Elem.para paper.authors] ++
    (match paper.link with
     | some l => if l = [] then [] else [Elem.linkPara l]
     | none => []) ++
    [Elem.para (("Summary:").data),
     Elem.para (generate_simple_summary paper),
     Elem.spacer])).flatten

/-- Modelled from the spec: the document layout engine and the PDF text
extraction of `_extract_text_from_pdf` are external collaborators treated
as black boxes; per the spec the re-parser works on the rendered text in
which each paragraph contributes its text content (markup entities render
as their characters, the hyperlink block contributes the URL), records
are separated by blank-line boundaries (the spacer yields an empty line),
and lines are joined with newlines. -/
def extracted_text (elems : List Elem) : PyStr :=
  pyJoin (("\n").data) (elems.map (fun e =>
    match e with
    | Elem.para t => xml_unescape t
    | Elem.linkPara u => u
    | Elem.spacer => []))

/-- A well-formed record (no blank lines, no markup characters in any
field) for the round-trip counterexample. -/
def c1Paper : Paper :=
  { title := ("T1").data, authors := ("John Doe").data, subjects := ("cs.LG").data,
    abstract := ("Some abstract.").data,
    link := some (("https://arxiv.org/abs/1234").data),
    paperId := some (("1234").data) }

/-- C1 (evaluating the code at the failing input): rendering the single
well-formed record `c1Paper` into a collection artifact and re-parsing
the artifact's text recovers 0 records, not 1 — the extractor strips the
`"Authors:"`/`"Subjects:"` markers before rendering, while the re-parser
pattern requires both literal markers, so no record of a rendered
artifact can ever match. -/
theorem rendered_artifact_reparse_loses_records :
    parse_papers_from_pdf
        (extracted_text (create_pdf_elements [c1Paper] (("x").data) (("g").data))) = [] ∧
    [c1Paper].length = 1 := by
  refine ⟨by decide, rfl⟩

/-- A record whose title contains the markup character `&`. -/
def ampPaper : Paper :=
  { title := ("A & B").data, authors := ("C & D").data, subjects := ("S").data,
    abstract := ("E & F. G. H. I.").data,
    link := some (("https://arxiv.org/abs/9").data),
    paperId := some (("9").data) }

/-- C5 (evaluating the code at the failing input): for a record whose
title contains `&`, the collection renderer places the escaped text
`"A &amp; B"` into its document, but the summary renderer places the raw
text `"A & B"` — it performs no escaping on any field, even though the
raw text differs from its escaped form and corrupts the renderer's
markup parsing. -/
theorem summary_renderer_skips_escaping :
    Elem.para (("A &amp; B").data) ∈
      create_pdf_elements [ampPaper] (("x").data) (("g").data) ∧
    Elem.para (("A & B").data) ∈
      create_summary_pdf_elements [ampPaper] (("x").data) (("g").data) ∧
    ((("A & B").data : PyStr) ≠ xml_escape (("A & B").data)) := by
  refine ⟨by decide, by decide, by decide⟩

/-- A listing entry whose located title and abstract texts survive marker
removal non-empty. -/
def EntryFieldsOk (e : Entry) : Prop :=
  (∀ s, e.titleText = some s → pyReplace s (("Title:").data) [] ≠ []) ∧
  (∀ s, e.abstractText = some s → s ≠ [])

theorem mkPaperOfEntry_fields (e : Entry) (he : EntryFieldsOk e) :
    (mkPaperOfEntry e).title ≠ [] ∧ (mkPaperOfEntry e).abstract ≠ [] := by
  constructor
  · have ht : (mkPaperOfEntry e).title =
        (match e.titleText with
         | some s => pyReplace s (("Title:").data) []
         | none => ("Title not found").data) := rfl
    rw [ht]
    match h : e.titleText with
    | some s => exact he.1 s h
    | none => decide
  · have ha : (mkPaperOfEntry e).abstract =
        (match e.abstractText with
         | some s => s
         | none => ("Abstract not found").data) := rfl
    rw [ha]
    match h : e.abstractText with
    | some s => exact he.2 s h
    | none => decide

theorem parse_loop_fields (topic : PyStr) (maxPapers : Nat) (entries : List Entry)
    (acc : List Paper) (hents : ∀ e ∈ entries, EntryFieldsOk e)
    (hacc : ∀ r ∈ acc, r.title ≠ [] ∧ r.abstract ≠ []) :
    ∀ r ∈ parse_paper_data_loop topic maxPapers entries acc,
      r.title ≠ [] ∧ r.abstract ≠ [] := by
  induction entries generalizing acc with
  | nil => exact hacc
  | cons e rest ih =>
    rw [parse_paper_data_loop]
    have hacc2 : ∀ r ∈ acc ++ [mkPaperOfEntry e], r.title ≠ [] ∧ r.abstract ≠ [] := by
      intro r hr
      rcases List.mem_append.mp hr with hr | hr
      · exact hacc r hr
      · rw [List.mem_singleton.mp hr]
        exact mkPaperOfEntry_fields e (hents e (by simp))
    have hrest : ∀ e2 ∈ rest, EntryFieldsOk e2 := fun e2 h2 => hents e2 (by simp [h2])
    by_cases hm : entryMatches e topic
    · simp only [hm, if_pos]
      by_cases hstop : maxPapers ≤ (acc ++ [mkPaperOfEntry e]).length
      · simp only [hstop, if_pos]
        exact hacc2
      · simp only [hstop, if_neg, not_false_iff]
        exact ih _ hrest hacc2
    · simp only [hm, Bool.false_eq_true, if_neg, not_false_iff]
      exact ih _ hrest hacc

/-- C9 (amended): every record the Entry Extractor produces after the
topic filter has a non-empty title and abstract provided each located
title element's text remains non-empty after `"Title:"` removal and each
located abstract element's text is non-empty (a failed locator yields the
non-empty `"not found"` placeholder); and every record the Artifact
Re-Parser produces has a non-empty title and abstract provided the
corresponding matched groups are non-empty after stripping. -/
theorem extracted_records_nonempty_fields :
    (∀ (entries : List Entry) (topic : PyStr) (maxPapers : Nat),
      (∀ e ∈ entries, EntryFieldsOk e) →
      ∀ r ∈ parse_paper_data entries topic maxPapers,
        r.title ≠ [] ∧ r.abstract ≠ []) ∧
    (∀ text : PyStr,
      (∀ m ∈ reFindAll papersPattern text,
        pyStrip (m.getD 0 []) ≠ [] ∧ pyStrip (m.getD 3 []) ≠ []) →
      ∀ r ∈ parse_papers_from_pdf text, r.title ≠ [] ∧ r.abstract ≠ []) := by
  constructor
  · intro entries topic maxPapers hents r hr
    exact parse_loop_fields topic maxPapers entries [] hents (by intro r2 h2; simp at h2)
      r hr
  · intro text hm r hr
    unfold parse_papers_from_pdf at hr
    obtain ⟨m, hmmem, hb⟩ := List.mem_map.mp hr
    subst hb
    have hgroups := hm m hmmem
    constructor
    · have ht : (buildPaperOfMatch m).title = pyStrip (m.getD 0 []) := rfl
      rw [ht]
      exact hgroups.1
    · have ha : (buildPaperOfMatch m).abstract =
          (if 3 < m.length then pyStrip (m.getD 3 []) else ("Abstract not found").data) :=
        rfl
      rw [ha]
      by_cases hl : 3 < m.length
      · simp only [hl, if_pos]
        exact hgroups.2
      · simp only [hl, if_neg, not_false_iff]
        decide

/-- A re-parseable artifact text with the literal markers present. -/
def sampleText : PyStr :=
  ("T\nAuthors: A https://arxiv.org/abs/1\nSubjects: S\nAbs\n\n").data

/-- C9 witness: the amended statement at a concrete listing entry and at
a concrete artifact text on which the re-parser pattern matches once. -/
theorem extracted_records_nonempty_fields_witness :
    (∀ r ∈ parse_paper_data [entryX] (("x").data) 100,
      r.title ≠ [] ∧ r.abstract ≠ []) ∧
    (∀ r ∈ parse_papers_from_pdf sampleText, r.title ≠ [] ∧ r.abstract ≠ []) :=
  ⟨extracted_records_nonempty_fields.1 [entryX] (("x").data) 100
    (by
      intro e he
      simp only [List.mem_singleton] at he
      subst he
      constructor
      · intro s hs
        simp only [entryX, Option.some.injEq] at hs
        subst hs
        decide
      · intro s hs
        simp only [entryX, Option.some.injEq] at hs
        subst hs
        decide),
   extracted_records_nonempty_fields.2 sampleText (by decide)⟩
